import Mathlib

/-!
Shallow embedding of the WebRTC polling-based signaling relay of `app.py`
(the `rtc_join`, `rtc_leave`, `rtc_signal` and `rtc_poll` endpoints), together
with theorems checking the specification's claims about it.

Timestamps are natural numbers counting seconds; `datetime.utcnow()` at the
moment of a call is the explicit parameter `now`; `timedelta(hours=2)` is
7200 and `timedelta(minutes=5)` is 300.  The authenticated caller identity
`u.id` is a `Nat` parameter (authentication is outside the modelled core).
-/

namespace Rtc

/-- One row of the participant table.  The column set (`room`, `user_id`,
`last_seen`) is the one `app.py` reads and writes on `RtcParticipant`. -/
structure RtcParticipant where
  room : String
  user_id : Nat
  last_seen : Nat
deriving Repr, DecidableEq

/-- One row of the signal table, as read and written by `app.py` on
`RtcSignal`. -/
structure RtcSignal where
  id : Nat
  room : String
  sender_id : Nat
  target_id : Option Nat
  kind : String
  payload : String
  created_at : Nat
deriving Repr, DecidableEq

/-- Modelled from the spec: the `RtcSignal` primary-key assignment and column
defaults live in `models.py`, which is not among the sources; the spec
requires a "globally monotonically increasing sequence number, assigned at
insertion time" maintained as "a single shared counter or equivalent total
order", modelled by the `nextId` field.  `participants` and `signals` are the
two shared server-side tables. -/
structure DB where
  participants : List RtcParticipant
  signals : List RtcSignal
  nextId : Nat
deriving Repr, DecidableEq

/-- Fresh state: empty tables, sequence counter at 1. -/
def DB.empty : DB := ⟨[], [], 1⟩

/-- The room-token normalization every endpoint applies:
`re.sub(r"[^a-zA-Z0-9_-]", "-", room)[:64]`. -/
def normRoom (room : String) : String :=
  String.mk ((room.toList.map fun c =>
    if c.isAlphanum || c == '_' || c == '-' then c else '-').take 64)

/-- Python's `str.strip()`: drop whitespace from both ends. -/
def pyStrip (s : String) : String :=
  String.mk (((s.toList.dropWhile Char.isWhitespace).reverse.dropWhile
    Char.isWhitespace).reverse)

/-- Value of a digit run (single underscores allowed between digits, as in
Python's `int`); `none` when malformed. -/
def pyIntDigits : Nat → List Char → Option Nat
  | acc, [] => some acc
  | acc, '_' :: c :: cs =>
      if c.isDigit then pyIntDigits (acc * 10 + (c.toNat - 48)) cs else none
  | _, ['_'] => none
  | acc, c :: cs =>
      if c.isDigit then pyIntDigits (acc * 10 + (c.toNat - 48)) cs else none

/-- Python's `int(s)` on a string: optional surrounding whitespace, optional
sign, then a nonempty digit sequence; a `ValueError` (here `none`) otherwise. -/
def pyInt (s : String) : Option Int :=
  match (pyStrip s).toList with
  | '-' :: c :: cs =>
      if c.isDigit then (pyIntDigits (c.toNat - 48) cs).map (fun n => -(n : Int))
      else none
  | '+' :: c :: cs =>
      if c.isDigit then (pyIntDigits (c.toNat - 48) cs).map (fun n => (n : Int))
      else none
  | c :: cs =>
      if c.isDigit then (pyIntDigits (c.toNat - 48) cs).map (fun n => (n : Int))
      else none
  | [] => none

/-- The kind enumeration accepted by `rtc_signal`:
`("offer","answer","candidate","hello","bye")`. -/
def validKinds : List String := ["offer", "answer", "candidate", "hello", "bye"]

/-- `RtcParticipant.query.filter_by(room=..., user_id=...).first()` followed by
`part.last_seen = now` when the row exists: refresh the first matching row,
no-op when there is none. -/
def touchFirst (room : String) (uid : Nat) (now : Nat) :
    List RtcParticipant → List RtcParticipant
  | [] => []
  | p :: ps =>
      if p.room = room ∧ p.user_id = uid then { p with last_seen := now } :: ps
      else p :: touchFirst room uid now ps

/-- `POST /api/rtc/join/<room>` (`rtc_join` in `app.py`): upsert the caller's
participant row, set `last_seen` to now, and return the ids of the other
participants recorded in the room. -/
def rtc_join (room : String) (uid : Nat) (now : Nat) (db : DB) :
    List Nat × DB :=
  let r := normRoom room
  let parts :=
    if db.participants.any fun p => decide (p.room = r ∧ p.user_id = uid) then
      touchFirst r uid now db.participants
    else
      db.participants ++ [⟨r, uid, now⟩]
  let others := (parts.filter fun p =>
    decide (p.room = r ∧ p.user_id ≠ uid)).map RtcParticipant.user_id
  (others, { db with participants := parts })

/-- `POST /api/rtc/leave/<room>` (`rtc_leave` in `app.py`): delete the caller's
participant row and append a broadcast signal of kind `"leave"` with payload
`"\x7b\x7d"`.  Always succeeds. -/
def rtc_leave (room : String) (uid : Nat) (now : Nat) (db : DB) : DB :=
  let r := normRoom room
  let parts := db.participants.filter fun p =>
    decide (¬(p.room = r ∧ p.user_id = uid))
  let sig : RtcSignal := ⟨db.nextId, r, uid, none, "leave", "\x7b\x7d", now⟩
  { participants := parts, signals := db.signals ++ [sig],
    nextId := db.nextId + 1 }

/-- The two local-validation failures of `rtc_signal` (HTTP 400 bodies
`Invalid kind` and `Missing payload`; `InvalidSignal` and `EmptyPayload` in
the spec's taxonomy). -/
inductive SigErr where
  | invalidSignal
  | emptyPayload
deriving Repr, DecidableEq

/-- `POST /api/rtc/signal/<room>` (`rtc_signal` in `app.py`): validate kind
(`(data.get("kind") or "").strip()`) and payload (`not payload`), then append
the signal with the next sequence id, touch the sender's presence, purge
signals whose `created_at` is before `now - 2h`, and return the new id.  On a
validation failure the response is HTTP 400 and the state is unchanged. -/
def rtc_signal (room : String) (uid : Nat) (target_id : Option Nat)
    (kind : Option String) (payload : Option String) (now : Nat) (db : DB) :
    Except SigErr Nat × DB :=
  let r := normRoom room
  let k := pyStrip (kind.getD "")
  if k ∉ validKinds then (.error .invalidSignal, db)
  else if payload.getD "" = "" then (.error .emptyPayload, db)
  else
    let sig : RtcSignal := ⟨db.nextId, r, uid, target_id, k, payload.getD "", now⟩
    let sigs := (db.signals ++ [sig]).filter fun s =>
      decide (¬(s.created_at < now - 7200))
    (.ok sig.id,
     { participants := touchFirst r uid now db.participants, signals := sigs,
       nextId := db.nextId + 1 })

/-- The row filter of `rtc_poll`: same room, id strictly after the cursor,
addressed to the caller or broadcast (`target_id` null), and not sent by the
caller. -/
def pollMatch (r : String) (uid : Nat) (since : Int) (s : RtcSignal) : Bool :=
  decide (s.room = r ∧ since < (s.id : Int) ∧
    (s.target_id = some uid ∨ s.target_id = none) ∧ s.sender_id ≠ uid)

/-- The ascending-id row order of `order_by(RtcSignal.id.asc())`. -/
def idLE (a b : RtcSignal) : Prop := a.id ≤ b.id

instance : DecidableRel idLE := fun a b => Nat.decLe a.id b.id

instance : IsTotal RtcSignal idLE := ⟨fun a b => Nat.le_total a.id b.id⟩

instance : IsTrans RtcSignal idLE := ⟨fun _ _ _ => Nat.le_trans⟩

/-- What `rtc_poll` returns on success: the matching signals in ascending id
order, and `latest`, the id of the last returned signal (`out[-1]["id"]`) or
the unchanged cursor when nothing matched. -/
structure PollResult where
  signals : List RtcSignal
  latest : Int
deriving Repr, DecidableEq

/-- `GET /api/rtc/poll/<room>` (`rtc_poll` in `app.py`): parse
`request.args.get("since", "0")` with `int` (an unparsable value raises,
modelled as `.error ()` with the state unchanged), touch the caller's
presence, select the matching signals ordered by ascending id, reap every
participant whose `last_seen` is before `now - 5min`, and return the signals
with the new cursor. -/
def rtc_poll (room : String) (uid : Nat) (sinceArg : Option String) (now : Nat)
    (db : DB) : Except Unit PollResult × DB :=
  let r := normRoom room
  match pyInt (sinceArg.getD "0") with
  | none => (.error (), db)
  | some since =>
      let parts := touchFirst r uid now db.participants
      let out := (db.signals.filter (pollMatch r uid since)).insertionSort idLE
      let parts := parts.filter fun p => decide (¬(p.last_seen < now - 300))
      (.ok ⟨out, match out.getLast? with
                 | some s => (s.id : Int)
                 | none => since⟩,
       { db with participants := parts })

/-- One public operation of the relay service, tagged with the wall-clock time
at which it runs. -/
inductive Op where
  | join (room : String) (uid : Nat) (now : Nat)
  | leave (room : String) (uid : Nat) (now : Nat)
  | signal (room : String) (uid : Nat) (target_id : Option Nat)
      (kind : Option String) (payload : Option String) (now : Nat)
  | poll (room : String) (uid : Nat) (sinceArg : Option String) (now : Nat)
deriving Repr

/-- State effect of one operation (responses discarded). -/
def applyOp (op : Op) (db : DB) : DB :=
  match op with
  | .join room uid now => (rtc_join room uid now db).2
  | .leave room uid now => rtc_leave room uid now db
  | .signal room uid t k p now => (rtc_signal room uid t k p now db).2
  | .poll room uid s now => (rtc_poll room uid s now db).2

/-- State after a sequence of operations. -/
def runOps (ops : List Op) (db : DB) : DB :=
  ops.foldl (fun d op => applyOp op d) db

/-- The (room, caller) key of a participant row. -/
def participantKey (p : RtcParticipant) : String × Nat := (p.room, p.user_id)

/-- At most one participant row per (room, caller): the key list is
duplicate-free. -/
def ParticipantsUnique (db : DB) : Prop :=
  (db.participants.map participantKey).Nodup

/-- Example row: a unicast message from caller 2 to caller 1 in room `"r"`. -/
def sigTo1 : RtcSignal := ⟨1, "r", 2, some 1, "offer", "x", 0⟩

/-- Example row: a broadcast message from caller 3 in room `"r"`. -/
def sigBroad : RtcSignal := ⟨2, "r", 3, none, "candidate", "y", 0⟩

/-- Example state holding the two example messages. -/
def dbTwo : DB := ⟨[], [sigTo1, sigBroad], 3⟩

/-- Example row: a message caller 5 addressed to itself. -/
def sigSelf : RtcSignal := ⟨1, "r", 5, some 5, "offer", "x", 0⟩

/-- Example state holding only the self-addressed message. -/
def dbSelf : DB := ⟨[], [sigSelf], 2⟩

/-- Example row: a message created at time 0 addressed to caller 2. -/
def sigOld : RtcSignal := ⟨1, "r", 1, some 2, "offer", "x", 0⟩

/-- Example state holding only the old message. -/
def dbOld : DB := ⟨[], [sigOld], 2⟩

/-- Example state with one participant whose `last_seen` is time 0. -/
def dbStale : DB := ⟨[⟨"r", 1, 0⟩], [], 1⟩

end Rtc

namespace Rtc

/-! ### Sequence-counter lemmas -/

/-- A successful `rtc_signal` returns the current counter value and advances
the counter by one. -/
theorem rtc_signal_ok_nextId {room : String} {uid : Nat} {t : Option Nat}
    {k p : Option String} {now : Nat} {db : DB} {i : Nat} {db' : DB}
    (h : rtc_signal room uid t k p now db = (.ok i, db')) :
    i = db.nextId ∧ db'.nextId = db.nextId + 1 := by
  simp only [rtc_signal] at h
  split at h
  · exact absurd (congrArg Prod.fst h) (by simp)
  · split at h
    · exact absurd (congrArg Prod.fst h) (by simp)
    · have h1 := congrArg Prod.fst h
      have h2 := congrArg Prod.snd h
      simp only at h1 h2
      refine ⟨by injection h1 with h1; omega, ?_⟩
      rw [← h2]

/-- No operation ever decreases the sequence counter. -/
theorem nextId_le_applyOp (op : Op) (db : DB) :
    db.nextId ≤ (applyOp op db).nextId := by
  cases op with
  | join room uid now => simp [applyOp, rtc_join]
  | leave room uid now => simp [applyOp, rtc_leave]
  | signal room uid t k p now =>
      simp only [applyOp, rtc_signal]
      split
      · simp
      · split
        · simp
        · simp
  | poll room uid s now =>
      simp only [applyOp, rtc_poll]
      split
      · simp
      · simp

/-- The sequence counter is monotone along any sequence of operations. -/
theorem nextId_le_runOps (ops : List Op) (db : DB) :
    db.nextId ≤ (runOps ops db).nextId := by
  induction ops generalizing db with
  | nil => simp [runOps]
  | cons op ops ih =>
      simp only [runOps, List.foldl_cons]
      exact le_trans (nextId_le_applyOp op db) (ih (applyOp op db))

end Rtc

namespace Rtc

/-- C1: Message ids assigned by sendSignal are globally strictly increasing:
whenever one successful `rtc_signal` call completes before another begins
(with any operations, in any rooms, in between), the first returned id is
strictly smaller than the second; in particular the returned ids are pairwise
distinct across the whole system, not just per room. -/
theorem sendSignal_ids_strictly_increasing
    (room₁ : String) (uid₁ : Nat) (t₁ : Option Nat) (k₁ p₁ : Option String)
    (n₁ : Nat) (room₂ : String) (uid₂ : Nat) (t₂ : Option Nat)
    (k₂ p₂ : Option String) (n₂ : Nat) (ops : List Op) (db₀ db₁ db₂ db₃ : DB)
    (i j : Nat)
    (hA : rtc_signal room₁ uid₁ t₁ k₁ p₁ n₁ db₀ = (.ok i, db₁))
    (hMid : runOps ops db₁ = db₂)
    (hB : rtc_signal room₂ uid₂ t₂ k₂ p₂ n₂ db₂ = (.ok j, db₃)) :
    i < j := by
  obtain ⟨hi, hn₁⟩ := rtc_signal_ok_nextId hA
  obtain ⟨hj, hn₂⟩ := rtc_signal_ok_nextId hB
  have hm := nextId_le_runOps ops db₁
  rw [hMid] at hm
  omega

/-- C1 witness: two concrete successful sends in different rooms. -/
theorem sendSignal_ids_strictly_increasing_witness : (1 : Nat) < 2 :=
  sendSignal_ids_strictly_increasing "a" 1 none (some "offer") (some "x") 0
    "b" 2 none (some "answer") (some "y") 5 [] DB.empty
    ⟨[], [⟨1, "a", 1, none, "offer", "x", 0⟩], 2⟩
    ⟨[], [⟨1, "a", 1, none, "offer", "x", 0⟩], 2⟩
    ⟨[], [⟨1, "a", 1, none, "offer", "x", 0⟩, ⟨2, "b", 2, none, "answer", "y", 5⟩], 3⟩
    1 2 rfl rfl rfl

end Rtc

namespace Rtc

/-! ### Poll inversion lemmas -/

/-- A successful poll presupposes that the cursor parameter parsed. -/
theorem rtc_poll_ok_parse {room : String} {uid : Nat} {sArg : Option String}
    {now : Nat} {db : DB} {res : PollResult} {st : DB}
    (h : rtc_poll room uid sArg now db = (.ok res, st)) :
    ∃ since : Int, pyInt (sArg.getD "0") = some since := by
  cases hp : pyInt (sArg.getD "0") with
  | none => simp only [rtc_poll, hp] at h; exact absurd (congrArg Prod.fst h) (by simp)
  | some s => exact ⟨s, rfl⟩

/-- A parsed cursor makes the poll succeed. -/
theorem rtc_poll_ok_of_parse {room : String} {uid : Nat} {sArg : Option String}
    {now : Nat} {db : DB} {since : Int}
    (hparse : pyInt (sArg.getD "0") = some since) :
    ∃ res st, rtc_poll room uid sArg now db = (.ok res, st) := by
  cases h : (rtc_poll room uid sArg now db).1 with
  | ok r => exact ⟨r, (rtc_poll room uid sArg now db).2, by rw [← h]⟩
  | error e =>
      exfalso
      simp only [rtc_poll, hparse] at h
      simp at h

/-- Successful-poll inversion: the response is the sorted row filter together
with the cursor rule. -/
theorem rtc_poll_ok_inv {room : String} {uid : Nat} {sArg : Option String}
    {now : Nat} {db : DB} {res : PollResult} {st : DB} {since : Int}
    (hparse : pyInt (sArg.getD "0") = some since)
    (h : rtc_poll room uid sArg now db = (.ok res, st)) :
    res = ⟨(db.signals.filter (pollMatch (normRoom room) uid since)).insertionSort
             idLE,
           match ((db.signals.filter
             (pollMatch (normRoom room) uid since)).insertionSort idLE).getLast? with
           | some s => (s.id : Int)
           | none => since⟩ := by
  simp only [rtc_poll, hparse] at h
  have h1 := congrArg Prod.fst h
  simp only at h1
  injection h1 with h1
  exact h1.symm

/-- Membership in a successful poll response. -/
theorem rtc_poll_mem {room : String} {uid : Nat} {sArg : Option String}
    {now : Nat} {db : DB} {res : PollResult} {st : DB} {since : Int}
    {m : RtcSignal}
    (hparse : pyInt (sArg.getD "0") = some since)
    (h : rtc_poll room uid sArg now db = (.ok res, st)) :
    m ∈ res.signals ↔
      m ∈ db.signals ∧ pollMatch (normRoom room) uid since m = true := by
  rw [rtc_poll_ok_inv hparse h]
  simp [List.mem_insertionSort, List.mem_filter]

/-- C3: Self-exclusion: a successful poll never returns a message whose
sender is the polling caller, for every room, caller, cursor and state. -/
theorem poll_self_exclusion
    (room : String) (uid : Nat) (sArg : Option String) (now : Nat) (db : DB)
    (res : PollResult) (st : DB)
    (h : rtc_poll room uid sArg now db = (.ok res, st)) :
    ∀ m ∈ res.signals, m.sender_id ≠ uid := by
  obtain ⟨since, hparse⟩ := rtc_poll_ok_parse h
  intro m hm
  have hpm := ((rtc_poll_mem hparse h).mp hm).2
  simp only [pollMatch, decide_eq_true_eq] at hpm
  exact hpm.2.2.2

/-- C3 witness: the unicast example message, returned by a concrete poll of
caller 1, was not sent by caller 1. -/
theorem poll_self_exclusion_witness : sigTo1.sender_id ≠ 1 :=
  poll_self_exclusion "r" 1 (some "0") 5 dbTwo ⟨[sigTo1, sigBroad], 2⟩
    ⟨[], [sigTo1, sigBroad], 3⟩ rfl sigTo1 (by decide)

/-- C4: Validation and atomicity on error: a kind whose stripped value is
outside the enumeration fails with `invalidSignal`, and an absent or empty
payload fails with `emptyPayload`; in both cases the returned state is the
input state, so neither the signal log nor the presence registry changed. -/
theorem sendSignal_validation_atomicity
    (room : String) (uid : Nat) (target : Option Nat)
    (kind payload : Option String) (now : Nat) (db : DB) :
    (pyStrip (kind.getD "") ∉ validKinds →
      rtc_signal room uid target kind payload now db
        = (.error .invalidSignal, db)) ∧
    (pyStrip (kind.getD "") ∈ validKinds → payload.getD "" = "" →
      rtc_signal room uid target kind payload now db
        = (.error .emptyPayload, db)) := by
  constructor
  · intro hk
    simp only [rtc_signal]
    rw [if_pos hk]
  · intro hk hp
    simp only [rtc_signal]
    rw [if_neg (not_not_intro hk), if_pos hp]

/-- C4 witness: the spec's own two failing calls. -/
theorem sendSignal_validation_atomicity_witness :
    rtc_signal "r" 1 none (some "explode") (some "x") 0 DB.empty
      = (.error .invalidSignal, DB.empty) ∧
    rtc_signal "r" 1 none (some "offer") (some "") 0 DB.empty
      = (.error .emptyPayload, DB.empty) :=
  ⟨(sendSignal_validation_atomicity "r" 1 none (some "explode") (some "x") 0
      DB.empty).1 (by decide),
   (sendSignal_validation_atomicity "r" 1 none (some "offer") (some "") 0
      DB.empty).2 (by decide) rfl⟩

/-- C5 counterexample: the departure message `rtc_leave` stores has kind
`"leave"`, which is not `"bye"` and is outside the enumeration that
`rtc_signal` validates. -/
theorem leave_kind_counterexample :
    ((rtc_leave "r" 1 0 DB.empty).signals.map RtcSignal.kind) = ["leave"] ∧
    "leave" ∉ validKinds ∧ "leave" ≠ "bye" := by decide

/-- C5 (amended): `rtc_leave` removes the caller's participant row and appends
one broadcast message (no target) from the caller, but with kind `"leave"` —
a value outside the enumeration `rtc_signal` accepts — and payload `"\x7b\x7d"`;
it is total (always succeeds) and repeating it leaves the participant table
unchanged. -/
theorem leave_removes_row_and_broadcasts
    (room : String) (uid : Nat) (now now₂ : Nat) (db : DB) :
    (∀ p ∈ (rtc_leave room uid now db).participants,
        ¬(p.room = normRoom room ∧ p.user_id = uid)) ∧
    (rtc_leave room uid now db).signals
      = db.signals
        ++ [⟨db.nextId, normRoom room, uid, none, "leave", "\x7b\x7d", now⟩] ∧
    (rtc_leave room uid now₂ (rtc_leave room uid now db)).participants
      = (rtc_leave room uid now db).participants := by
  refine ⟨?_, rfl, ?_⟩
  · intro p hp
    have hmem := List.mem_filter.mp (by simpa only [rtc_leave] using hp)
    exact of_decide_eq_true hmem.2
  · simp only [rtc_leave, List.filter_filter]
    simp [Bool.and_self]

end Rtc

namespace Rtc

/-- Successful-poll state inversion: the caller's row is touched, then stale
rows are reaped. -/
theorem rtc_poll_ok_state {room : String} {uid : Nat} {sArg : Option String}
    {now : Nat} {db : DB} {res : PollResult} {st : DB} {since : Int}
    (hparse : pyInt (sArg.getD "0") = some since)
    (h : rtc_poll room uid sArg now db = (.ok res, st)) :
    st = { db with participants :=
      ((touchFirst (normRoom room) uid now db.participants).filter
        (fun p => decide (¬(p.last_seen < now - 300)))) } := by
  simp only [rtc_poll, hparse] at h
  have h2 := congrArg Prod.snd h
  simp only at h2
  exact h2.symm

/-- In a list sorted by ascending id, every member's id is bounded by the id
of the last element. -/
theorem id_le_getLast {l : List RtcSignal} (hs : l.Sorted idLE) {m x : RtcSignal}
    (hm : m ∈ l) (hx : l.getLast? = some x) : m.id ≤ x.id := by
  induction l with
  | nil => simp at hm
  | cons a t ih =>
      cases t with
      | nil =>
          simp only [List.mem_singleton] at hm
          simp only [List.getLast?_singleton, Option.some.injEq] at hx
          subst hm
          subst hx
          exact Nat.le_refl _
      | cons b t2 =>
          rw [List.getLast?_cons_cons] at hx
          rcases List.mem_cons.mp hm with rfl | hm2
          · have hxmem : x ∈ b :: t2 := List.mem_of_mem_getLast? hx
            exact (List.sorted_cons.mp hs).1 x hxmem
          · exact ih (List.sorted_cons.mp hs).2 hm2 hx

/-- C2 counterexample: a stored message whose target equals its own sender is
never delivered to that target — poll by the target with a cursor below the
message id returns an empty result, refuting the unqualified first conjunct
of the claim. -/
theorem poll_targeting_counterexample :
    sigSelf ∈ dbSelf.signals ∧ sigSelf.room = normRoom "r" ∧
    sigSelf.target_id = some 5 ∧ ((0 : Int) < sigSelf.id) ∧
    (rtc_poll "r" 5 (some "0") 9 dbSelf).1 = .ok ⟨[], 0⟩ :=
  ⟨by decide, by decide, by decide, by decide, rfl⟩

/-- C2 (amended): for every stored message of the room with `target_id = X`
and `sender_id ≠ X`, a poll by X with a cursor below the id returns it; a
poll by any Y ≠ X never returns it; and a stored broadcast message (no
target) is returned to every caller W other than its sender whose cursor is
below the id. -/
theorem poll_targeting
    (room : String) (X Y W : Nat) (sArg : Option String) (since : Int)
    (now₁ now₂ now₃ : Nat) (db : DB) (m : RtcSignal)
    (hm : m ∈ db.signals) (hroom : m.room = normRoom room)
    (hparse : pyInt (sArg.getD "0") = some since) :
    (m.target_id = some X → m.sender_id ≠ X → since < (m.id : Int) →
      ∃ res st, rtc_poll room X sArg now₁ db = (.ok res, st) ∧
        m ∈ res.signals) ∧
    (m.target_id = some X → Y ≠ X →
      ∀ res st, rtc_poll room Y sArg now₂ db = (.ok res, st) →
        m ∉ res.signals) ∧
    (m.target_id = none → m.sender_id ≠ W → since < (m.id : Int) →
      ∃ res st, rtc_poll room W sArg now₃ db = (.ok res, st) ∧
        m ∈ res.signals) := by
  refine ⟨?_, ?_, ?_⟩
  · intro ht hs hlt
    obtain ⟨res, st, hok⟩ := @rtc_poll_ok_of_parse room X sArg now₁ db since hparse
    refine ⟨res, st, hok, ?_⟩
    rw [rtc_poll_mem hparse hok]
    refine ⟨hm, ?_⟩
    simp only [pollMatch, decide_eq_true_eq]
    exact ⟨hroom, hlt, Or.inl ht, hs⟩
  · intro ht hy res st hok hmem
    have hpm := ((rtc_poll_mem hparse hok).mp hmem).2
    simp only [pollMatch, decide_eq_true_eq] at hpm
    rcases hpm.2.2.1 with hcase | hcase
    · rw [ht] at hcase
      exact hy (Option.some.injEq .. ▸ hcase.symm ▸ rfl)
    · rw [ht] at hcase
      cases hcase
  · intro ht hs hlt
    obtain ⟨res, st, hok⟩ := @rtc_poll_ok_of_parse room W sArg now₃ db since hparse
    refine ⟨res, st, hok, ?_⟩
    rw [rtc_poll_mem hparse hok]
    refine ⟨hm, ?_⟩
    simp only [pollMatch, decide_eq_true_eq]
    exact ⟨hroom, hlt, Or.inr ht, hs⟩

/-- C2 witness: the unicast example message is delivered to its target. -/
theorem poll_targeting_witness :
    ∃ res st, rtc_poll "r" 1 (some "0") 5 dbTwo = (.ok res, st) ∧
      sigTo1 ∈ res.signals :=
  (poll_targeting "r" 1 3 4 (some "0") 0 5 6 7 dbTwo sigTo1 (by decide)
    (by decide) (by decide)).1 (by decide) (by decide) (by decide)

/-- C6: Poll cursor contract: a successful poll returns its rows in ascending
id order; the returned cursor equals the greatest returned id, and equals the
parsed cursor unchanged when no row matched. -/
theorem poll_cursor_contract
    (room : String) (uid : Nat) (sArg : Option String) (now : Nat) (db : DB)
    (res : PollResult) (st : DB) (since : Int)
    (hparse : pyInt (sArg.getD "0") = some since)
    (h : rtc_poll room uid sArg now db = (.ok res, st)) :
    res.signals.Sorted idLE ∧
    (res.signals = [] → res.latest = since) ∧
    (∀ m ∈ res.signals, (m.id : Int) ≤ res.latest) ∧
    (res.signals ≠ [] → ∃ m ∈ res.signals, (m.id : Int) = res.latest) := by
  have hres := rtc_poll_ok_inv hparse h
  subst hres
  refine ⟨List.sorted_insertionSort idLE _, ?_, ?_, ?_⟩
  · intro hnil
    simp only at hnil ⊢
    rw [hnil]
    rfl
  · intro m hm
    simp only at hm ⊢
    cases hl : ((db.signals.filter
        (pollMatch (normRoom room) uid since)).insertionSort idLE).getLast? with
    | none =>
        rw [List.getLast?_eq_none_iff] at hl
        rw [hl] at hm
        simp at hm
    | some x =>
        show (m.id : Int) ≤ (x.id : Int)
        exact_mod_cast id_le_getLast (List.sorted_insertionSort idLE _) hm hl
  · intro hne
    simp only at hne ⊢
    cases hl : ((db.signals.filter
        (pollMatch (normRoom room) uid since)).insertionSort idLE).getLast? with
    | none => exact absurd (List.getLast?_eq_none_iff.mp hl) hne
    | some x =>
        exact ⟨x, List.mem_of_mem_getLast? hl, rfl⟩

/-- C6 witness: a poll returning two rows, in order, with cursor 2. -/
theorem poll_cursor_contract_witness :
    (⟨[sigTo1, sigBroad], 2⟩ : PollResult).signals.Sorted idLE ∧
    ((⟨[sigTo1, sigBroad], 2⟩ : PollResult).signals = [] →
      (⟨[sigTo1, sigBroad], 2⟩ : PollResult).latest = 0) ∧
    (∀ m ∈ (⟨[sigTo1, sigBroad], 2⟩ : PollResult).signals,
      (m.id : Int) ≤ (⟨[sigTo1, sigBroad], 2⟩ : PollResult).latest) ∧
    ((⟨[sigTo1, sigBroad], 2⟩ : PollResult).signals ≠ [] →
      ∃ m ∈ (⟨[sigTo1, sigBroad], 2⟩ : PollResult).signals,
        (m.id : Int) = (⟨[sigTo1, sigBroad], 2⟩ : PollResult).latest) :=
  poll_cursor_contract "r" 1 (some "0") 5 dbTwo ⟨[sigTo1, sigBroad], 2⟩
    ⟨[], [sigTo1, sigBroad], 3⟩ 0 rfl rfl

end Rtc

namespace Rtc

/-- C8 counterexample: a message whose age exceeds the two-hour window (it is
10000 seconds old) is still returned by a later poll, because `rtc_poll` never
purges — only `rtc_signal` does. -/
theorem retention_purge_counterexample :
    sigOld ∈ dbOld.signals ∧ 7200 < 10000 - sigOld.created_at ∧
    (rtc_poll "r" 2 (some "0") 10000 dbOld).1 = .ok ⟨[sigOld], 1⟩ :=
  ⟨by decide, by decide, rfl⟩

/-- C8 (amended): the retention purge runs inside `rtc_signal`, not inside
`rtc_poll`: after any successful send at time `now` no stored message is
older than the two-hour window, and a poll only returns stored messages — so
an expired message is absent from every poll issued after the next
successful send, but can still be returned before one happens. -/
theorem retention_purge_on_send
    (room : String) (uid : Nat) (target : Option Nat)
    (kind payload : Option String) (now : Nat) (db : DB) (i : Nat) (db' : DB)
    (room₂ : String) (uid₂ : Nat) (sArg : Option String) (now₂ : Nat)
    (db₂ : DB) (res : PollResult) (st : DB) :
    (rtc_signal room uid target kind payload now db = (.ok i, db') →
      ∀ m ∈ db'.signals, ¬(m.created_at < now - 7200)) ∧
    (rtc_poll room₂ uid₂ sArg now₂ db₂ = (.ok res, st) →
      ∀ m ∈ res.signals, m ∈ db₂.signals) := by
  constructor
  · intro h m hm
    simp only [rtc_signal] at h
    split at h
    · exact absurd (congrArg Prod.fst h) (by simp)
    · split at h
      · exact absurd (congrArg Prod.fst h) (by simp)
      · have h2 := congrArg Prod.snd h
        simp only at h2
        rw [← h2] at hm
        exact of_decide_eq_true (List.mem_filter.mp hm).2
  · intro h m hm
    obtain ⟨since, hparse⟩ := rtc_poll_ok_parse h
    exact ((rtc_poll_mem hparse h).mp hm).1

/-- C8 witness: a send at time 10000 purges the expired example message, and
a poll on the two-message state returns only stored rows. -/
theorem retention_purge_on_send_witness :
    (∀ m ∈ ([⟨2, "r", 1, none, "offer", "z", 10000⟩] : List RtcSignal),
      ¬(m.created_at < 10000 - 7200)) ∧
    (∀ m ∈ ([sigTo1, sigBroad] : List RtcSignal), m ∈ dbTwo.signals) :=
  ⟨(retention_purge_on_send "r" 1 none (some "offer") (some "z") 10000 dbOld 2
      ⟨[], [⟨2, "r", 1, none, "offer", "z", 10000⟩], 3⟩
      "r" 1 (some "0") 5 dbTwo ⟨[sigTo1, sigBroad], 2⟩
      ⟨[], [sigTo1, sigBroad], 3⟩).1 rfl,
   (retention_purge_on_send "r" 1 none (some "offer") (some "z") 10000 dbOld 2
      ⟨[], [⟨2, "r", 1, none, "offer", "z", 10000⟩], 3⟩
      "r" 1 (some "0") 5 dbTwo ⟨[sigTo1, sigBroad], 2⟩
      ⟨[], [sigTo1, sigBroad], 3⟩).2 rfl⟩

/-- C9 counterexample: a participant stale for longer than the TTL (last seen
at 0, now 1000) still appears in the snapshot of a later join, because
`rtc_join` neither reaps nor filters by staleness — only `rtc_poll` reaps. -/
theorem stale_reap_counterexample :
    (⟨"r", 1, 0⟩ : RtcParticipant) ∈ dbStale.participants ∧
    300 < 1000 - (0 : Nat) ∧
    (rtc_join "r" 2 1000 dbStale).1 = [1] := by
  refine ⟨by decide, by decide, by decide⟩

/-- C9 (amended): the staleness reap runs inside `rtc_poll`, not inside
`rtc_join`: after any successful poll at time `now` no stored participant (in
any room) has `last_seen` older than the five-minute TTL, and a join snapshot
only lists stored rows of the room other than the caller — so a reaped
participant is absent from every join snapshot taken after that poll, but a
stale one can still appear before some poll happens. -/
theorem stale_reap_on_poll
    (room : String) (uid : Nat) (sArg : Option String) (now : Nat) (db : DB)
    (res : PollResult) (st : DB) (room₂ : String) (uid₂ : Nat) (now₂ : Nat)
    (db₂ : DB) :
    (rtc_poll room uid sArg now db = (.ok res, st) →
      ∀ p ∈ st.participants, ¬(p.last_seen < now - 300)) ∧
    (∀ x ∈ (rtc_join room₂ uid₂ now₂ db₂).1,
      ∃ p ∈ (rtc_join room₂ uid₂ now₂ db₂).2.participants,
        p.user_id = x ∧ p.room = normRoom room₂ ∧ x ≠ uid₂) := by
  constructor
  · intro h p hp
    obtain ⟨since, hparse⟩ := rtc_poll_ok_parse h
    rw [rtc_poll_ok_state hparse h] at hp
    simp only at hp
    exact of_decide_eq_true (List.mem_filter.mp hp).2
  · intro x hx
    simp only [rtc_join] at hx
    obtain ⟨p, hp, hpx⟩ := List.mem_map.mp hx
    have hpf := List.mem_filter.mp hp
    have hcond := of_decide_eq_true hpf.2
    refine ⟨p, ?_, hpx, hcond.1, ?_⟩
    · simp only [rtc_join]
      exact hpf.1
    · rw [← hpx]
      exact hcond.2

/-- C9 witness: a poll at time 1000 leaves only fresh participants, and the
join snapshot on the stale state lists exactly stored other-rows. -/
theorem stale_reap_on_poll_witness :
    (∀ p ∈ ([⟨"r", 1, 1000⟩] : List RtcParticipant),
      ¬(p.last_seen < 1000 - 300)) ∧
    (∀ x ∈ (rtc_join "r" 2 1000 dbStale).1,
      ∃ p ∈ (rtc_join "r" 2 1000 dbStale).2.participants,
        p.user_id = x ∧ p.room = normRoom "r" ∧ x ≠ 2) :=
  ⟨(stale_reap_on_poll "r" 1 (some "0") 1000 dbStale ⟨[], 0⟩
      ⟨[⟨"r", 1, 1000⟩], [], 1⟩ "r" 2 1000 dbStale).1 rfl,
   (stale_reap_on_poll "r" 1 (some "0") 1000 dbStale ⟨[], 0⟩
      ⟨[⟨"r", 1, 1000⟩], [], 1⟩ "r" 2 1000 dbStale).2⟩

/-- C10 counterexample: a `since` value that is not a well-formed integer
makes the poll fail (`int()` raises, an HTTP 500) rather than succeed. -/
theorem poll_since_parse_counterexample :
    rtc_poll "r" 1 (some "abc") 0 DB.empty = (.error (), DB.empty) := rfl

/-- C10 (amended): poll never fails when the `since` parameter is absent
(defaulted to "0") or is a string `int()` accepts; it raises exactly on a
malformed `since`. -/
theorem poll_total_on_parsable_since
    (room : String) (uid : Nat) (now : Nat) (db : DB) (s : String) (k : Int) :
    (∃ res st, rtc_poll room uid none now db = (.ok res, st)) ∧
    (pyInt s = some k →
      ∃ res st, rtc_poll room uid (some s) now db = (.ok res, st)) := by
  constructor
  · exact @rtc_poll_ok_of_parse room uid none now db 0 rfl
  · intro hp
    exact @rtc_poll_ok_of_parse room uid (some s) now db k hp

/-- C10 witness: polls with an absent cursor and with cursor "-3". -/
theorem poll_total_on_parsable_since_witness :
    (∃ res st, rtc_poll "r" 1 none 5 dbTwo = (.ok res, st)) ∧
    (∃ res st, rtc_poll "r" 1 (some "-3") 5 dbTwo = (.ok res, st)) :=
  ⟨(poll_total_on_parsable_since "r" 1 5 dbTwo "-3" (-3)).1,
   (poll_total_on_parsable_since "r" 1 5 dbTwo "-3" (-3)).2 (by decide)⟩

end Rtc

namespace Rtc

/-! ### Presence-uniqueness lemmas -/

/-- Touching preserves each row's (room, caller) key. -/
theorem touchFirst_map_key (room : String) (uid now : Nat)
    (l : List RtcParticipant) :
    (touchFirst room uid now l).map participantKey = l.map participantKey := by
  induction l with
  | nil => rfl
  | cons p ps ih =>
      unfold touchFirst
      split
      · simp [participantKey]
      · simp only [List.map_cons, ih]

/-- Keys of a filtered row list form a sublist of the original keys. -/
theorem map_key_filter_sublist (q : RtcParticipant → Bool)
    (l : List RtcParticipant) :
    ((l.filter q).map participantKey).Sublist (l.map participantKey) :=
  List.Sublist.map participantKey (List.filter_sublist l)

/-- Every relay operation preserves the at-most-one-row-per-(room, caller)
invariant. -/
theorem participantsUnique_applyOp (op : Op) (db : DB)
    (h : ParticipantsUnique db) : ParticipantsUnique (applyOp op db) := by
  cases op with
  | join room uid now =>
      simp only [applyOp, rtc_join, ParticipantsUnique] at h ⊢
      split
      · rw [touchFirst_map_key]
        exact h
      · rename_i hany
        rw [List.map_append, List.nodup_append]
        refine ⟨h, by simp, ?_⟩
        intro a ha hb
        simp only [List.map_cons, List.map_nil, List.mem_singleton] at hb
        obtain ⟨p, hp, hkey⟩ := List.mem_map.mp ha
        apply hany
        rw [List.any_eq_true]
        refine ⟨p, hp, ?_⟩
        rw [hb] at hkey
        have h1 : p.room = normRoom room := congrArg Prod.fst hkey
        have h2 : p.user_id = uid := congrArg Prod.snd hkey
        simp [h1, h2]
  | leave room uid now =>
      simp only [applyOp, rtc_leave, ParticipantsUnique] at h ⊢
      exact List.Nodup.sublist (map_key_filter_sublist _ _) h
  | signal room uid t k p now =>
      simp only [applyOp, rtc_signal, ParticipantsUnique] at h ⊢
      split
      · exact h
      · split
        · exact h
        · simp only
          rw [touchFirst_map_key]
          exact h
  | poll room uid s now =>
      simp only [applyOp, rtc_poll, ParticipantsUnique] at h ⊢
      split
      · exact h
      · simp only
        exact List.Nodup.sublist (map_key_filter_sublist _ _)
          (by rw [touchFirst_map_key]; exact h)

/-- After a join the caller's key is present. -/
theorem rtc_join_key_mem (room : String) (uid now : Nat) (db : DB) :
    (normRoom room, uid) ∈
      ((rtc_join room uid now db).2.participants.map participantKey) := by
  simp only [rtc_join]
  split
  · rename_i hany
    rw [touchFirst_map_key]
    rw [List.any_eq_true] at hany
    obtain ⟨p, hp, hdec⟩ := hany
    have hcond := of_decide_eq_true hdec
    exact List.mem_map.mpr
      ⟨p, hp, by simp [participantKey, hcond.1, hcond.2]⟩
  · rw [List.map_append]
    exact List.mem_append_right _ (by simp [participantKey])

/-- Under the uniqueness invariant, every row matching a freshly touched key
carries the new timestamp. -/
theorem touchFirst_last_seen {room : String} {uid now : Nat}
    {l : List RtcParticipant} (h : (l.map participantKey).Nodup)
    {p : RtcParticipant} (hp : p ∈ touchFirst room uid now l)
    (hr : p.room = room) (hu : p.user_id = uid) : p.last_seen = now := by
  induction l with
  | nil => simp [touchFirst] at hp
  | cons q qs ih =>
      rw [List.map_cons, List.nodup_cons] at h
      unfold touchFirst at hp
      split at hp
      · rename_i hq
        rcases List.mem_cons.mp hp with rfl | h2
        · rfl
        · exfalso
          apply h.1
          have hkeq : participantKey q = participantKey p := by
            simp [participantKey, hq.1, hq.2, hr, hu]
          rw [hkeq]
          exact List.mem_map_of_mem participantKey h2
      · rename_i hq
        rcases List.mem_cons.mp hp with rfl | h2
        · exact absurd ⟨hr, hu⟩ hq
        · exact ih h.2 h2

/-- In a duplicate-free list, a present element is counted exactly once. -/
theorem countP_eq_one_of_nodup_mem {α : Type} [DecidableEq α] {l : List α}
    {a : α} (h : l.Nodup) (ha : a ∈ l) :
    l.countP (fun k => decide (k = a)) = 1 := by
  induction l with
  | nil => simp at ha
  | cons b t ih =>
      rw [List.nodup_cons] at h
      rw [List.countP_cons]
      rcases List.mem_cons.mp ha with rfl | hat
      · have hz : t.countP (fun k => decide (k = a)) = 0 := by
          rw [List.countP_eq_zero]
          intro x hx
          simp only [decide_eq_true_eq]
          intro hxa
          exact h.1 (hxa ▸ hx)
        simp [hz]
      · rw [ih h.2 hat]
        have hba : ¬(b = a) := fun hba => h.1 (hba ▸ hat)
        simp [hba]

/-- The number of rows matching a key equals that key's multiplicity in the
key list. -/
theorem length_filter_key (R : String) (c : Nat) (l : List RtcParticipant) :
    (l.filter fun p => decide (p.room = R ∧ p.user_id = c)).length
      = (l.map participantKey).countP (fun k => decide (k = (R, c))) := by
  induction l with
  | nil => rfl
  | cons p ps ih =>
      rw [List.filter_cons, List.map_cons, List.countP_cons]
      by_cases hp : p.room = R ∧ p.user_id = c
      · have hk : participantKey p = (R, c) := by
          simp [participantKey, hp.1, hp.2]
        rw [if_pos (by simpa using hp), List.length_cons, ih, hk]
        simp
      · have hk : ¬(participantKey p = (R, c)) := by
          simp only [participantKey, Prod.mk.injEq]
          intro hcon
          exact hp ⟨hcon.1, hcon.2⟩
        rw [if_neg (by simpa using hp), ih]
        simp [hk]

end Rtc

namespace Rtc

/-- C7: Presence uniqueness and upsert semantics: starting from any state with
at most one Participant row per (room, caller), every relay operation
preserves that invariant, and joining twice with the same room and caller
yields exactly one matching row, whose `last_seen` is the second call's
time. -/
theorem presence_upsert_uniqueness
    (db : DB) (h : ParticipantsUnique db) :
    (∀ op, ParticipantsUnique (applyOp op db)) ∧
    (∀ room c t₁ t₂,
      ((rtc_join room c t₂ ((rtc_join room c t₁ db).2)).2.participants.filter
          (fun p => decide (p.room = normRoom room ∧ p.user_id = c))).length
        = 1 ∧
      (∀ p ∈ (rtc_join room c t₂ ((rtc_join room c t₁ db).2)).2.participants,
        p.room = normRoom room → p.user_id = c → p.last_seen = t₂)) := by
  refine ⟨fun op => participantsUnique_applyOp op db h, ?_⟩
  intro room c t₁ t₂
  have h₁ : ParticipantsUnique ((rtc_join room c t₁ db).2) :=
    participantsUnique_applyOp (.join room c t₁) db h
  have hkey := rtc_join_key_mem room c t₁ db
  have hany : ((rtc_join room c t₁ db).2.participants.any
      fun p => decide (p.room = normRoom room ∧ p.user_id = c)) = true := by
    rw [List.any_eq_true]
    obtain ⟨p, hp, hk⟩ := List.mem_map.mp hkey
    have h1 : p.room = normRoom room := congrArg Prod.fst hk
    have h2 : p.user_id = c := congrArg Prod.snd hk
    exact ⟨p, hp, by simp [h1, h2]⟩
  have hparts : (rtc_join room c t₂ ((rtc_join room c t₁ db).2)).2.participants
      = touchFirst (normRoom room) c t₂ ((rtc_join room c t₁ db).2).participants := by
    conv_lhs => rw [rtc_join]
    simp only [hany, if_true]
  constructor
  · rw [hparts, length_filter_key, touchFirst_map_key]
    exact countP_eq_one_of_nodup_mem h₁ hkey
  · intro p hp hr hu
    rw [hparts] at hp
    exact touchFirst_last_seen h₁ hp hr hu

/-- C7 witness: two joins by caller 2 into the state that already holds
caller 1. -/
theorem presence_upsert_uniqueness_witness :
    ParticipantsUnique (applyOp (Op.leave "q" 7 3) dbStale) ∧
    (((rtc_join "r" 2 20 ((rtc_join "r" 2 10 dbStale).2)).2.participants.filter
        (fun p => decide (p.room = normRoom "r" ∧ p.user_id = 2))).length = 1 ∧
     (∀ p ∈ (rtc_join "r" 2 20 ((rtc_join "r" 2 10 dbStale).2)).2.participants,
        p.room = normRoom "r" → p.user_id = 2 → p.last_seen = 20)) :=
  ⟨(presence_upsert_uniqueness dbStale
      (show (dbStale.participants.map participantKey).Nodup by decide)).1
      (Op.leave "q" 7 3),
   (presence_upsert_uniqueness dbStale
      (show (dbStale.participants.map participantKey).Nodup by decide)).2
      "r" 2 10 20⟩

end Rtc
